import Mathlib

/-!
Verification of the `ustl::memblock` growable buffer (src/memblock.h).

The embedding models a buffer as a record of the pointer (`ptr`, with `0`
playing the role of the null pointer), the logical length (`len`, the
`memlink` size), the bytes of the region the pointer designates (`store`),
and the `m_AllocatedSize` capacity field of `memblock`.

Operations whose bodies live in memblock.cc / memlink.h (not part of the
sources at hand) are modelled from the specification, or — where the header
documents their behaviour — from the header's own documentation; each such
definition says so in its doc comment.  Operations that free memory return,
besides the new state, the list of addresses passed to `free`, so that
"never frees p" claims are statable.
-/

namespace ustl

/-- Bytes are modelled as natural numbers; their values are never computed
with, only moved around. -/
abbrev Byte := Nat

/-- Memory addresses; `0` models the null pointer. -/
abbrev Addr := Nat

/-- The `cmemlink`/`memlink` view (pointer + length) together with the bytes
of the region the pointer designates.  Both view classes carry the same data;
constness is a compile-time property not modelled here. -/
structure memlink where
  ptr : Addr := 0
  len : Nat := 0
  store : List Byte := []
deriving DecidableEq, Repr

/-- The memblock buffer: a memlink view plus the `m_AllocatedSize` field
(src/memblock.h:71). -/
structure memblock extends memlink where
  m_AllocatedSize : Nat := 0
deriving DecidableEq, Repr

/-- The default minimum allocation unit (src/memblock.h:41). -/
def memblock.c_PageSize : Nat := 64

/-- Default constructor: allocates 0 bytes (src/memblock.h:75-79). -/
def memblock.null : memblock :=
  { ptr := 0, len := 0, store := [], m_AllocatedSize := 0 }

/-- Constructor from a `cmemlink` view (src/memblock.h:96-100): "Links to
what b is linked to" — copies the view fields and sets `m_AllocatedSize` to 0. -/
def memblock.ofCmemlink (b : memlink) : memblock :=
  { ptr := b.ptr, len := b.len, store := b.store, m_AllocatedSize := 0 }

/-- Constructor from a `memlink` view (src/memblock.h:102-107): identical to
the `cmemlink` constructor — links, `m_AllocatedSize = 0`. -/
def memblock.ofMemlink (b : memlink) : memblock :=
  { ptr := b.ptr, len := b.len, store := b.store, m_AllocatedSize := 0 }

/-- Number of bytes allocated (src/memblock.h:122-125). -/
def memblock.capacity (b : memblock) : Nat := b.m_AllocatedSize

/-- True if the storage is linked, false if allocated
(src/memblock.h:146-149): `!m_AllocatedSize && cdata()`. -/
def memblock.is_linked (b : memblock) : Bool :=
  b.m_AllocatedSize == 0 && b.ptr != 0

/-- Unlinks the object (src/memblock.h:152-156): `memlink::unlink()` —
modelled from the spec as resetting data to null and length to 0 — followed
by `m_AllocatedSize = 0`. -/
def memblock.unlink (_b : memblock) : memblock :=
  { ptr := 0, len := 0, store := [], m_AllocatedSize := 0 }

/-- Modelled from the spec (body in memblock.cc, not among the sources):
deallocate frees the storage when owned (`m_AllocatedSize > 0`) and then
unlinks; when linked or already unlinked it unlinks without freeing.
Returns the new state and the list of addresses passed to `free`. -/
def memblock.deallocate (b : memblock) : memblock × List Addr :=
  (b.unlink, if 0 < b.m_AllocatedSize then [b.ptr] else [])

/-- The destructor (src/memblock.h:115-119): `if (!is_linked()) deallocate();`.
Returns the list of addresses freed. -/
def memblock.destroy (b : memblock) : memblock × List Addr :=
  if b.is_linked then (b, []) else b.deallocate

/-- Rounding used by inexact reserve: the hint rounded up to the next
multiple of `grain` (the spec's "rounds the hint up to the next multiple of
a fixed page unit (64 bytes)"). -/
def alignUp (n grain : Nat) : Nat := ((n + grain - 1) / grain) * grain

/-- Modelled from the spec (body in memblock.cc, not among the sources):
reserve is a no-op when `newSize <= m_AllocatedSize`; otherwise it computes
the target capacity (`newSize` itself when `bExact`, else rounded up to the
next multiple of `c_PageSize`), reallocates to that capacity preserving the
first `len` bytes of content (a linked or unlinked buffer gets a fresh
allocation at `freshAddr`; an owned buffer is reallocated in place), fills
the rest of the new region with the arbitrary byte `fill`, and updates
`m_AllocatedSize`; `len` is unchanged. -/
def memblock.reserve (b : memblock) (newSize : Nat) (bExact : Bool)
    (freshAddr : Addr) (fill : Byte) : memblock :=
  if newSize ≤ b.m_AllocatedSize then b
  else
    let newCap := if bExact then newSize else alignUp newSize memblock.c_PageSize
    let kept := min b.len newCap
    { ptr := if b.m_AllocatedSize = 0 then freshAddr else b.ptr
      len := b.len
      store := b.store.take kept ++ List.replicate (newCap - kept) fill
      m_AllocatedSize := newCap }

/-- Resize (src/memblock.h:166-170): `reserve (newSize, bExact)` followed by
`memlink::resize (newSize)`; the latter is modelled from the spec as setting
the logical length. -/
def memblock.resize (b : memblock) (newSize : Nat) (bExact : Bool)
    (freshAddr : Addr) (fill : Byte) : memblock :=
  { b.reserve newSize bExact freshAddr fill with len := newSize }

/-- Resizes the block to 0 (src/memblock.h:140-143): `resize (0)`, with the
declared default `bExact = true`; the fresh-address and fill arguments are
irrelevant because a reserve of 0 never allocates. -/
def memblock.clear (b : memblock) : memblock :=
  b.resize 0 true 0 0

/-- Swap (src/memblock.h:159-163): `memlink::swap (l)` — modelled from the
spec's ByteView swap, exchanging the view fields — followed by swapping the
`m_AllocatedSize` fields. -/
def memblock.swap (a l : memblock) : memblock × memblock :=
  ({ a with ptr := l.ptr, len := l.len, store := l.store,
            m_AllocatedSize := l.m_AllocatedSize },
   { l with ptr := a.ptr, len := a.len, store := a.store,
            m_AllocatedSize := a.m_AllocatedSize })

/-- Modelled from the source documentation (body in memblock.cc, not among
the sources): per src/memblock.h:32-35 memory "linked to using the Manage()
member function" counts as managed and "Managed memory is automatically
freed in the destructor", and per src/memblock.h:109-113 a block "linked to
using Manage" is freed; with the destructor freeing exactly when
`m_AllocatedSize != 0`, manage must link to the region and record its size
as allocated: `link(p, n); m_AllocatedSize = n`.  The region's `n` bytes are
given as the list `bytes`.  Prior state is discarded without freeing (the
caller must deallocate or unlink first). -/
def memblock.manage (_b : memblock) (p : Addr) (bytes : List Byte) : memblock :=
  { ptr := p, len := bytes.length, store := bytes,
    m_AllocatedSize := bytes.length }

/-- Manage overload for a memlink (src/memblock.h:127-131):
`manage (l.begin(), l.size())`. -/
def memblock.manage_link (b : memblock) (l : memlink) : memblock :=
  b.manage l.ptr (l.store.take l.len)

/-- Modelled from the spec (body in memblock.cc, not among the sources):
insert grows the logical size by `n` via the resize path (inexact, so
capacity grows if needed), then shifts the byte range `[ip, oldLen)` forward
by `n` bytes with an overlap-safe move; the gap `[ip, ip+n)` keeps whatever
bytes were there (unspecified content).  The returned iterator is the index
`ip` and is not modelled. -/
def memblock.insert (b : memblock) (ip n : Nat) (freshAddr : Addr)
    (fill : Byte) : memblock :=
  let b1 := b.resize (b.len + n) false freshAddr fill
  let s := b1.store
  { b1 with store := s.take (ip + n) ++ (s.drop ip).take (b.len - ip)
                      ++ s.drop (b.len + n) }

/-- Modelled from the spec (body in memblock.cc, not among the sources):
erase shifts the tail range `[ep+n, len)` backward by `n` bytes with an
overlap-safe move, then shrinks the logical length by `n`; capacity is not
reclaimed.  The returned iterator is the index `ep` and is not modelled. -/
def memblock.erase (b : memblock) (ep n : Nat) : memblock :=
  let s := b.store
  { b with len := b.len - n,
           store := s.take ep ++ (s.drop (ep + n)).take (b.len - ep - n)
                     ++ s.drop (b.len - n) }

/-- One reserve or resize call, for stating properties of call sequences. -/
inductive MemOp where
  | reserveOp (n : Nat) (bExact : Bool)
  | resizeOp (n : Nat) (bExact : Bool)
deriving DecidableEq, Repr

/-- Applies one operation, drawing a fresh address and fill byte. -/
def memblock.applyOp (b : memblock) (op : MemOp) (freshAddr : Addr)
    (fill : Byte) : memblock :=
  match op with
  | .reserveOp n e => b.reserve n e freshAddr fill
  | .resizeOp n e => b.resize n e freshAddr fill

/-- Runs a sequence of reserve/resize calls, threading a fresh-address
counter. -/
def memblock.runOps (b : memblock) (ops : List MemOp) (freshAddr : Addr)
    (fill : Byte) : memblock :=
  match ops with
  | [] => b
  | op :: rest => (b.applyOp op freshAddr fill).runOps rest (freshAddr + 1) fill

/-! Helper lemmas shared by several of the claim theorems. -/

lemma alignUp_page_le (n : Nat) : n ≤ alignUp n memblock.c_PageSize := by
  unfold alignUp memblock.c_PageSize
  omega

lemma alignUp_page_lt (n : Nat) : alignUp n memblock.c_PageSize < n + memblock.c_PageSize := by
  unfold alignUp memblock.c_PageSize
  omega

lemma alignUp_page_dvd (n : Nat) : memblock.c_PageSize ∣ alignUp n memblock.c_PageSize := by
  unfold alignUp
  exact dvd_mul_left _ _

lemma reserve_len (b : memblock) (n : Nat) (e : Bool) (a : Addr) (f : Byte) :
    (b.reserve n e a f).len = b.len := by
  simp only [memblock.reserve]
  split <;> rfl

lemma reserve_capacity (b : memblock) (n : Nat) (e : Bool) (a : Addr) (f : Byte) :
    (b.reserve n e a f).m_AllocatedSize =
      if n ≤ b.m_AllocatedSize then b.m_AllocatedSize
      else if e then n else alignUp n memblock.c_PageSize := by
  simp only [memblock.reserve]
  split <;> rfl

lemma reserve_capacity_le (b : memblock) (n : Nat) (e : Bool) (a : Addr) (f : Byte) :
    b.m_AllocatedSize ≤ (b.reserve n e a f).m_AllocatedSize := by
  rw [reserve_capacity]
  have h := alignUp_page_le n
  split
  · exact Nat.le_refl _
  · split <;> omega

lemma reserve_noop (b : memblock) (n : Nat) (e : Bool) (a : Addr) (f : Byte)
    (h : n ≤ b.m_AllocatedSize) : b.reserve n e a f = b := by
  simp only [memblock.reserve]
  rw [if_pos h]

lemma reserve_store_length (b : memblock) (n : Nat) (e : Bool) (a : Addr) (f : Byte)
    (hwf : b.len ≤ b.store.length) (hcap : b.m_AllocatedSize ≤ b.store.length) :
    n ≤ (b.reserve n e a f).store.length := by
  simp only [memblock.reserve]
  split
  · next h => omega
  · next h =>
    have hal := alignUp_page_le n
    cases e <;>
      simp only [Bool.false_eq_true, if_false, if_true, List.length_append,
        List.length_take, List.length_replicate] <;> omega

lemma reserve_getElem (b : memblock) (n : Nat) (e : Bool) (a : Addr) (f : Byte)
    (hwf : b.len ≤ b.store.length) (i : Nat) (hi : i < b.len) (hin : i < n) :
    (b.reserve n e a f).store[i]? = b.store[i]? := by
  simp only [memblock.reserve]
  split
  · rfl
  · next h =>
    have hal := alignUp_page_le n
    cases e <;>
      simp only [Bool.false_eq_true, if_false, if_true, List.getElem?_append,
        List.length_take, List.getElem?_take, List.getElem?_replicate] <;>
      split_ifs <;> first | rfl | omega

lemma applyOp_capacity_le (b : memblock) (op : MemOp) (a : Addr) (f : Byte) :
    b.m_AllocatedSize ≤ (b.applyOp op a f).m_AllocatedSize := by
  cases op with
  | reserveOp n e => exact reserve_capacity_le b n e a f
  | resizeOp n e =>
    show b.m_AllocatedSize ≤ (b.resize n e a f).m_AllocatedSize
    simp only [memblock.resize]
    exact reserve_capacity_le b n e a f

lemma runOps_capacity_le (ops : List MemOp) : ∀ (b : memblock) (a : Addr) (f : Byte),
    b.m_AllocatedSize ≤ (b.runOps ops a f).m_AllocatedSize := by
  induction ops with
  | nil => intro b a f; exact Nat.le_refl _
  | cons op rest ih =>
    intro b a f
    exact Nat.le_trans (applyOp_capacity_le b op a f)
      (ih (b.applyOp op a f) (a + 1) f)

/-! The claim theorems. -/

/-- C1 counterexample: the claim that `manage(p, n)` leaves the buffer in
the linked state with `allocatedCapacity = 0` and that destruction never
frees `p` is false: managing the 3-byte foreign region at address 7 yields
`m_AllocatedSize = 3`, a non-linked buffer, and destruction frees address 7
(the header documents that managed memory is freed in the destructor). -/
theorem manage_links_foreign_cex :
    (memblock.null.manage 7 [1, 2, 3]).m_AllocatedSize ≠ 0 ∧
    (memblock.null.manage 7 [1, 2, 3]).is_linked = false ∧
    (memblock.null.manage 7 [1, 2, 3]).destroy.2 = [7] := by
  decide

/-- C1 (amended): after `manage(p, n)` with `n > 0` the buffer takes
ownership of the foreign region: `data = p`, `length = n`,
`allocatedCapacity = n`, the buffer is not linked, and both destruction and
deallocate free exactly `p`. -/
theorem manage_takes_ownership (b : memblock) (p : Addr) (bytes : List Byte)
    (hn : 0 < bytes.length) :
    (b.manage p bytes).ptr = p ∧
    (b.manage p bytes).len = bytes.length ∧
    (b.manage p bytes).m_AllocatedSize = bytes.length ∧
    (b.manage p bytes).is_linked = false ∧
    (b.manage p bytes).destroy = (memblock.null, [p]) ∧
    (b.manage p bytes).deallocate = (memblock.null, [p]) := by
  have h0 : bytes.length ≠ 0 := Nat.pos_iff_ne_zero.mp hn
  refine ⟨rfl, rfl, rfl, ?_, ?_, ?_⟩
  · simp [memblock.manage, memblock.is_linked, h0]
  · simp [memblock.manage, memblock.destroy, memblock.is_linked, h0,
      memblock.deallocate, memblock.unlink, memblock.null, hn]
  · simp [memblock.manage, memblock.deallocate, memblock.unlink,
      memblock.null, hn]

/-- Witness for the amended C1 theorem at a concrete input. -/
theorem manage_takes_ownership_wit :
    (memblock.null.manage 7 [9]).m_AllocatedSize = 1 ∧
    (memblock.null.manage 7 [9]).destroy = (memblock.null, [7]) := by
  have h := manage_takes_ownership memblock.null 7 [9] (by decide)
  exact ⟨h.2.2.1, h.2.2.2.2.1⟩

/-- C2 counterexample: constructing a buffer from the non-empty view
`(ptr = 5, len = 2)` does not allocate fresh owned storage with a distinct
data pointer: the constructor links, leaving `m_AllocatedSize = 0` and the
same data pointer 5. -/
theorem copy_construct_links_cex :
    (memblock.ofCmemlink { ptr := 5, len := 2, store := [10, 20] }).m_AllocatedSize = 0 ∧
    (memblock.ofCmemlink { ptr := 5, len := 2, store := [10, 20] }).ptr = 5 := by
  decide

/-- C2 (amended): constructing a buffer from a `cmemlink` or `memlink` view
does not copy: the new buffer links to the source view's memory — same data
pointer, same length, same bytes, `allocatedCapacity = 0` — and is in the
linked state whenever the view's pointer is non-null; the two view
constructors behave identically. -/
theorem view_construct_links (v : memlink) (hv : v.ptr ≠ 0) :
    (memblock.ofCmemlink v).ptr = v.ptr ∧
    (memblock.ofCmemlink v).len = v.len ∧
    (memblock.ofCmemlink v).store = v.store ∧
    (memblock.ofCmemlink v).m_AllocatedSize = 0 ∧
    (memblock.ofCmemlink v).is_linked = true ∧
    memblock.ofMemlink v = memblock.ofCmemlink v := by
  refine ⟨rfl, rfl, rfl, rfl, ?_, rfl⟩
  simp [memblock.ofCmemlink, memblock.is_linked, hv]

/-- Witness for the amended C2 theorem at a concrete input. -/
theorem view_construct_links_wit :
    (memblock.ofCmemlink { ptr := 5, len := 1, store := [10] }).m_AllocatedSize = 0 ∧
    (memblock.ofCmemlink { ptr := 5, len := 1, store := [10] }).is_linked = true := by
  have h := view_construct_links { ptr := 5, len := 1, store := [10] } (by decide)
  exact ⟨h.2.2.2.1, h.2.2.2.2.1⟩

/-- C3: the destructor frees the underlying storage exactly when the buffer
is owned (`m_AllocatedSize > 0`); on a linked buffer (capacity 0, non-null
data) it does nothing at all, leaving the foreign memory untouched. -/
theorem destructor_frees_iff_owned (b : memblock) :
    b.destroy.2 = (if 0 < b.m_AllocatedSize then [b.ptr] else []) ∧
    (b.is_linked = true → b.destroy = (b, [])) := by
  constructor
  · by_cases hl : b.is_linked
    · have hc : b.m_AllocatedSize = 0 := by
        simp [memblock.is_linked] at hl
        exact hl.1
      simp [memblock.destroy, hl, hc]
    · simp [memblock.destroy, hl, memblock.deallocate]
  · intro h
    simp [memblock.destroy, h]

/-- Witness for the C3 theorem at a concrete linked buffer. -/
theorem destructor_frees_iff_owned_wit :
    (memblock.destroy { ptr := 3, len := 1, store := [9], m_AllocatedSize := 0 }).2
      = (if 0 < (0 : Nat) then [3] else []) ∧
    memblock.destroy { ptr := 3, len := 1, store := [9], m_AllocatedSize := 0 }
      = ({ ptr := 3, len := 1, store := [9], m_AllocatedSize := 0 }, []) := by
  have h := destructor_frees_iff_owned
    { ptr := 3, len := 1, store := [9], m_AllocatedSize := 0 }
  exact ⟨h.1, h.2 (by decide)⟩

/-- C8: swap exchanges exactly the fields of the two buffers — the result is
the pair reversed — the total allocated capacity across the pair is
unchanged, and swapping twice restores both buffers exactly. -/
theorem swap_involutive_exchanges (a b : memblock) :
    memblock.swap a b = (b, a) ∧
    (memblock.swap a b).1.m_AllocatedSize + (memblock.swap a b).2.m_AllocatedSize
      = a.m_AllocatedSize + b.m_AllocatedSize ∧
    memblock.swap (memblock.swap a b).1 (memblock.swap a b).2 = (a, b) := by
  refine ⟨rfl, ?_, rfl⟩
  show b.m_AllocatedSize + a.m_AllocatedSize = a.m_AllocatedSize + b.m_AllocatedSize
  omega

/-- C9: deallocate is always safe and idempotent: it resets the buffer to
the unlinked empty state, freeing the storage exactly when the buffer was
owned; a second deallocate frees nothing, and the buffer is unlinked
(null data pointer, not linked) after each of the two calls. -/
theorem deallocate_safe_idempotent (b : memblock) :
    b.deallocate = (memblock.null, if 0 < b.m_AllocatedSize then [b.ptr] else []) ∧
    b.deallocate.1.ptr = 0 ∧
    b.deallocate.1.is_linked = false ∧
    b.deallocate.1.deallocate = (memblock.null, []) ∧
    b.deallocate.1.deallocate.1.ptr = 0 ∧
    b.deallocate.1.deallocate.1.is_linked = false := by
  refine ⟨rfl, rfl, rfl, rfl, rfl, rfl⟩

/-- C10: clear sets the logical length to 0 and changes nothing else: the
data pointer, the stored bytes, and the allocated capacity are all
unchanged, so an owned buffer stays owned and a linked buffer keeps
pointing at the same foreign memory. -/
theorem clear_keeps_capacity_and_data (b : memblock) :
    b.clear = { b with len := 0 } ∧
    b.clear.len = 0 ∧
    b.clear.m_AllocatedSize = b.m_AllocatedSize ∧
    b.clear.ptr = b.ptr ∧
    b.clear.store = b.store := by
  have h : b.clear = { b with len := 0 } := by
    simp only [memblock.clear, memblock.resize]
    rw [reserve_noop b 0 true 0 0 (Nat.zero_le _)]
  refine ⟨h, ?_, ?_, ?_, ?_⟩ <;> rw [h]

/-- C4: resize is exactly reserve followed by setting the logical length:
after `resize(newSize, exact)` the length is `newSize` and the first
`min(oldLength, newSize)` bytes are unchanged, for every fill byte the
allocator may leave in newly exposed storage (their content is otherwise
unspecified). -/
theorem resize_is_reserve_then_setlen (b : memblock) (n : Nat) (e : Bool)
    (a : Addr) (f : Byte) (hwf : b.len ≤ b.store.length) :
    b.resize n e a f = { b.reserve n e a f with len := n } ∧
    (b.resize n e a f).len = n ∧
    (b.resize n e a f).m_AllocatedSize = (b.reserve n e a f).m_AllocatedSize ∧
    (∀ i, i < min b.len n → (b.resize n e a f).store[i]? = b.store[i]?) := by
  refine ⟨rfl, rfl, rfl, ?_⟩
  intro i hi
  show (b.reserve n e a f).store[i]? = b.store[i]?
  exact reserve_getElem b n e a f hwf i (by omega) (by omega)

/-- Witness for the C4 theorem at a concrete input. -/
theorem resize_is_reserve_then_setlen_wit :
    (memblock.resize { ptr := 2, len := 2, store := [4, 5, 6], m_AllocatedSize := 3 } 1 true 9 0).len = 1 ∧
    (memblock.resize { ptr := 2, len := 2, store := [4, 5, 6], m_AllocatedSize := 3 } 1 true 9 0).store[0]?
      = ([4, 5, 6] : List Byte)[0]? := by
  have h := resize_is_reserve_then_setlen
    { ptr := 2, len := 2, store := [4, 5, 6], m_AllocatedSize := 3 } 1 true 9 0
    (by decide)
  exact ⟨h.2.1, h.2.2.2 0 (by decide)⟩

/-- C5: allocatedCapacity is monotonically non-decreasing under every
sequence of reserve and resize calls, and a reserve whose hint does not
exceed the current capacity changes nothing at all. -/
theorem capacity_monotone (b : memblock) (ops : List MemOp) (a : Addr) (f : Byte) :
    b.m_AllocatedSize ≤ (b.runOps ops a f).m_AllocatedSize ∧
    (∀ n e a2 f2, n ≤ b.m_AllocatedSize → b.reserve n e a2 f2 = b) := by
  refine ⟨runOps_capacity_le ops b a f, ?_⟩
  intro n e a2 f2 h
  exact reserve_noop b n e a2 f2 h

/-- Witness for the C5 theorem at a concrete input. -/
theorem capacity_monotone_wit :
    (memblock.runOps { ptr := 2, len := 1, store := [4, 5], m_AllocatedSize := 2 }
        [MemOp.resizeOp 10 true, MemOp.reserveOp 100 false] 7 0).m_AllocatedSize ≥ 2 ∧
    memblock.reserve { ptr := 2, len := 1, store := [4, 5], m_AllocatedSize := 2 } 2 true 9 3
      = { ptr := 2, len := 1, store := [4, 5], m_AllocatedSize := 2 } := by
  have h := capacity_monotone { ptr := 2, len := 1, store := [4, 5], m_AllocatedSize := 2 }
    [MemOp.resizeOp 10 true, MemOp.reserveOp 100 false] 7 0
  exact ⟨h.1, h.2 2 true 9 3 (by decide)⟩

/-- C6: when reserve must allocate (hint strictly above the capacity), an
exact reserve makes the capacity exactly the hint and an inexact reserve
makes it the hint rounded up to the next multiple of the 64-byte page unit
(a multiple of 64 that is at least the hint and less than the hint plus 64);
in both cases the logical length is unchanged. -/
theorem reserve_growth_sizes (b : memblock) (n : Nat) (a : Addr) (f : Byte)
    (h : b.m_AllocatedSize < n) :
    (b.reserve n true a f).m_AllocatedSize = n ∧
    (b.reserve n false a f).m_AllocatedSize = alignUp n memblock.c_PageSize ∧
    n ≤ alignUp n memblock.c_PageSize ∧
    alignUp n memblock.c_PageSize < n + memblock.c_PageSize ∧
    memblock.c_PageSize ∣ alignUp n memblock.c_PageSize ∧
    (b.reserve n true a f).len = b.len ∧
    (b.reserve n false a f).len = b.len := by
  refine ⟨?_, ?_, alignUp_page_le n, alignUp_page_lt n, alignUp_page_dvd n,
    reserve_len b n true a f, reserve_len b n false a f⟩
  · rw [reserve_capacity]
    simp [Nat.not_le.mpr h]
  · rw [reserve_capacity]
    simp [Nat.not_le.mpr h]

/-- Witness for the C6 theorem: an empty buffer reserved to 10 exact bytes
has capacity exactly 10, and reserved inexactly has capacity 64. -/
theorem reserve_growth_sizes_wit :
    (memblock.null.reserve 10 true 1 0).m_AllocatedSize = 10 ∧
    (memblock.null.reserve 10 false 1 0).m_AllocatedSize = alignUp 10 memblock.c_PageSize ∧
    alignUp 10 memblock.c_PageSize = 64 := by
  have h := reserve_growth_sizes memblock.null 10 1 0 (by decide)
  exact ⟨h.1, h.2.1, by decide⟩

/-- C7: insert and erase are inverses: for a well-formed buffer of length L,
a position p ≤ L and any count k, `insert(p, k)` followed by `erase(p, k)`
restores the original length, and every byte of the result — those before p
and those from p onward up to L — equals the corresponding byte of the
original content, for every fill byte and fresh address the allocator may
use. -/
theorem insert_erase_inverse (b : memblock) (p k : Nat) (a : Addr) (f : Byte)
    (hp : p ≤ b.len) (hwf : b.len ≤ b.store.length)
    (hcap : b.m_AllocatedSize ≤ b.store.length) :
    ((b.insert p k a f).erase p k).len = b.len ∧
    (∀ i, i < p → ((b.insert p k a f).erase p k).store[i]? = b.store[i]?) ∧
    (∀ i, p ≤ i → i < b.len → ((b.insert p k a f).erase p k).store[i]? = b.store[i]?) := by
  have hr_slen : b.len + k ≤ (b.reserve (b.len + k) false a f).store.length :=
    reserve_store_length b (b.len + k) false a f hwf hcap
  have hr_pt : ∀ j, j < b.len → (b.reserve (b.len + k) false a f).store[j]? = b.store[j]? :=
    fun j hj => reserve_getElem b (b.len + k) false a f hwf j hj (by omega)
  refine ⟨?_, ?_, ?_⟩
  · simp only [memblock.insert, memblock.erase, memblock.resize]
    omega
  · intro i hip
    have hi : i < b.len := by omega
    have hgen : ∀ j, j = i → (b.reserve (b.len + k) false a f).store[j]? = b.store[i]? := by
      intro j hj
      rw [hj]
      exact hr_pt i hi
    simp only [memblock.insert, memblock.erase, memblock.resize]
    simp only [List.append_assoc]
    simp only [List.getElem?_append, List.getElem?_take, List.getElem?_drop,
      List.length_append, List.length_take, List.length_drop]
    split_ifs <;> first | exact hgen _ (by omega) | omega
  · intro i hpi hi
    have hgen : ∀ j, j = i → (b.reserve (b.len + k) false a f).store[j]? = b.store[i]? := by
      intro j hj
      rw [hj]
      exact hr_pt i hi
    simp only [memblock.insert, memblock.erase, memblock.resize]
    simp only [List.append_assoc]
    simp only [List.getElem?_append, List.getElem?_take, List.getElem?_drop,
      List.length_append, List.length_take, List.length_drop]
    split_ifs <;> first | exact hgen _ (by omega) | omega

/-- Witness for the C7 theorem at a concrete input. -/
theorem insert_erase_inverse_wit :
    ((memblock.insert { ptr := 1, len := 5, store := [1, 2, 3, 4, 5], m_AllocatedSize := 5 } 2 2 9 0).erase 2 2).len
      = ({ ptr := 1, len := 5, store := [1, 2, 3, 4, 5], m_AllocatedSize := 5 } : memblock).len ∧
    ((memblock.insert { ptr := 1, len := 5, store := [1, 2, 3, 4, 5], m_AllocatedSize := 5 } 2 2 9 0).erase 2 2).store[1]?
      = ({ ptr := 1, len := 5, store := [1, 2, 3, 4, 5], m_AllocatedSize := 5 } : memblock).store[1]? ∧
    ((memblock.insert { ptr := 1, len := 5, store := [1, 2, 3, 4, 5], m_AllocatedSize := 5 } 2 2 9 0).erase 2 2).store[3]?
      = ({ ptr := 1, len := 5, store := [1, 2, 3, 4, 5], m_AllocatedSize := 5 } : memblock).store[3]? := by
  have h := insert_erase_inverse
    { ptr := 1, len := 5, store := [1, 2, 3, 4, 5], m_AllocatedSize := 5 } 2 2 9 0
    (by decide) (by decide) (by decide)
  exact ⟨h.1, h.2.1 1 (by decide), h.2.2 3 (by decide) (by decide)⟩

end ustl
